import Mathlib

/-! Push service of bftrader (`src/cta/pushservice.cpp`)

A shallow embedding of `RobotClient`, `PingCb` and `PushService`.

* Heap objects are records carrying their address (`Ptr`); `new` takes the
  address the allocator returns as an argument.
* Effects on the outside world (gRPC channel, completion queue, `QThread`,
  `QTimer`) are recorded as a list of `Event`s in program order of the calling
  thread.
* `clients_` is a `QMap<QString, RobotClient*>`: a list of key/value pairs
  that `QMap` keeps strictly sorted by key.
* `BfDebug`/`BfError` (logger) and `g_sm->checkCurrentOn` (owner-context
  assertion) are external collaborators without effect on the state embedded
  here and are left out of the traces.
-/

namespace BfTrader

/-- Address of a heap object. -/
abbrev Ptr := Nat

/-! ## Protocol messages -/

/-- Modelled from the spec: the generated protobuf class `BfConnectReq`
(`bfrobot.grpc.pb.h` is not among the sources). Fields as listed in the spec
(client id, ip, port, subscribed symbol, exchange, three handler flags) and as
read by the accessors used in `pushservice.cpp`. -/
structure BfConnectReq where
  clientid : String
  clientip : String
  clientport : Int
  symbol : String
  exchange : String
  loghandler : Bool
  tickhandler : Bool
  tradehandler : Bool
  deriving DecidableEq, Repr

/-- Modelled from the spec: protobuf `BfPingData`; `onPing` sets `message`. -/
structure BfPingData where
  message : String
  deriving DecidableEq, Repr

/-- Modelled from the spec: protobuf `BfTickData`; only symbol and exchange
matter to the subscription filter, the rest of the payload is kept abstract. -/
structure BfTickData where
  symbol : String
  exchange : String
  payload : Nat
  deriving DecidableEq, Repr

/-- The part of `grpc::Status` read by `PingCb::operator()`. -/
structure Status where
  ok : Bool
  error_code : Int
  error_message : String
  deriving DecidableEq, Repr

/-! ## Events -/

/-- The asynchronous calls of `BfRobotService::Stub` issued by `RobotClient`. -/
inductive RpcCall where
  | AsyncOnPing (data : BfPingData)
  | AsyncOnTick (data : BfTickData)
  deriving DecidableEq, Repr

/-- Observable effects, in program order of the owner context. The `Ptr` is
the address of the `RobotClient` concerned. -/
inductive Event where
  /-- Ran `grpc::CreateChannel(endpoint, ...)` and `BfRobotService::NewStub`. -/
  | channelCreated (client : Ptr) (endpoint : String)
  /-- Ran `cq_thread_ = new QThread()` with the drain loop connected to it. -/
  | threadCreated (client : Ptr)
  /-- Ran `cq_thread_->start()`: the drain worker is active from here on. -/
  | threadStarted (client : Ptr)
  /-- Ran `cq_.Shutdown()`. -/
  | cqShutdown (client : Ptr)
  /-- Ran `cq_thread_->quit()`. -/
  | threadQuit (client : Ptr)
  /-- Returned from `cq_thread_->wait()`: the drain worker has been joined. -/
  | threadWait (client : Ptr)
  /-- Ran `delete cq_thread_`. -/
  | threadDeleted (client : Ptr)
  /-- Member `cq_` destroyed (implicit, after the destructor body). -/
  | cqDestroyed (client : Ptr)
  /-- Member `stub_` destroyed: the call-channel state is released. -/
  | stubDestroyed (client : Ptr)
  /-- An asynchronous call was issued on the stub of `client`; `clientid` is
  the metadata attached by `IGrpcCb`, `deadline` its `deadline_` in ms. -/
  | asyncCall (client : Ptr) (call : RpcCall) (clientid : String) (deadline : Nat)
  /-- Ran `new QTimer` / `setInterval` / `start`. -/
  | timerStarted (interval : Nat)
  /-- Ran `pingTimer_->stop()`. -/
  | timerStopped
  /-- Ran `delete pingTimer_`. -/
  | timerDeleted
  deriving DecidableEq, Repr

/-! ## C strings -/

/-- Conversion of a `std::string` to `QString` through `c_str()` (also the
`%s` of `sprintf`): the characters before the first NUL. -/
def QString.fromCStr (str : String) : String :=
  String.mk (str.data.takeWhile (fun ch => ch ≠ Char.ofNat 0))

/-! ## 32-bit counter -/

/-- Value of a two's complement `int32_t` holding the integer `z` modulo
`2^32`. -/
def wrapInt32 (z : Int) : Int :=
  (z + 2147483648) % 4294967296 - 2147483648

/-- Largest `int32_t`. -/
def INT32_MAX : Int := 2147483647

/-- Smallest `int32_t`. -/
def INT32_MIN : Int := -2147483648

/-! ## RobotClient -/

/-- The class `RobotClient`. `self` is the address of the object, `stub_` is
represented by the endpoint its channel was created for. `cq_` and
`cq_thread_` have no value of their own here: what happens to them is in the
trace. -/
structure RobotClient where
  self : Ptr
  stub_ : String
  pingfail_count_ : Int
  ctaId_ : String
  req_ : BfConnectReq
  deriving DecidableEq, Repr

namespace RobotClient

/-- `IGrpcCb::deadline_`. -/
def deadline_ : Nat := 500

/-- Constructor `RobotClient(channel, ctaId, req)` for an object placed at
`p`, with the channel created for `endpoint`. Returns the object and the
effects of the constructor body. -/
def ctor (p : Ptr) (endpoint : String) (ctaId : String) (req : BfConnectReq) :
    RobotClient × List Event :=
  ({ self := p, stub_ := endpoint, pingfail_count_ := 0, ctaId_ := ctaId, req_ := req },
   [Event.threadCreated p, Event.threadStarted p])

/-- Destructor `~RobotClient()`: the body, then the members with a destructor
in reverse order of declaration (`cq_`, then `stub_`). -/
def dtor (c : RobotClient) : List Event :=
  [Event.cqShutdown c.self, Event.threadQuit c.self, Event.threadWait c.self,
   Event.threadDeleted c.self, Event.cqDestroyed c.self, Event.stubDestroyed c.self]

def ctaId (c : RobotClient) : String := c.ctaId_

def robotId (c : RobotClient) : String := QString.fromCStr c.req_.clientid

def logHandler (c : RobotClient) : Bool := c.req_.loghandler

def tickHandler (c : RobotClient) : Bool := c.req_.tickhandler

def tradehandler (c : RobotClient) : Bool := c.req_.tradehandler

/-- `bool subscribled(const std::string& symbol, const std::string& exchange)`. -/
def subscribled (c : RobotClient) (symbol : String) (_exchange : String) : Bool :=
  if c.req_.symbol = "*" then true
  else if symbol = c.req_.symbol then true
  else false

/-- `pingfail_count_++` on a `std::atomic_int32_t`: atomic arithmetic on a
signed type wraps around (no undefined result). -/
def incPingFailCount (c : RobotClient) : RobotClient :=
  { c with pingfail_count_ := wrapInt32 (c.pingfail_count_ + 1) }

def pingFailCount (c : RobotClient) : Int := c.pingfail_count_

def resetPingFailCount (c : RobotClient) : RobotClient :=
  { c with pingfail_count_ := 0 }

/-- `void OnPing(const BfPingData& data)`: a `PingCb` is created with the
metadata `ctaId()` and the call is issued on `cq_`. -/
def OnPing (c : RobotClient) (data : BfPingData) : List Event :=
  [Event.asyncCall c.self (RpcCall.AsyncOnPing data) c.ctaId deadline_]

/-- `void OnTick(const BfTickData& data)`. -/
def OnTick (c : RobotClient) (data : BfTickData) : List Event :=
  [Event.asyncCall c.self (RpcCall.AsyncOnTick data) c.ctaId deadline_]

end RobotClient

/-- `PingCb::operator()` run on a `PingCb` whose completion status is
`status_`, acting on the `RobotClient` it points to. -/
def PingCb.call (status_ : Status) (robotClient_ : RobotClient) : RobotClient :=
  if !status_.ok then
    robotClient_.incPingFailCount
  else
    robotClient_.resetPingFailCount

/-! ## Completion queue drain loop -/

/-- The callback objects whose address is used as completion tag. `PingCb`
overrides `operator()`; `GrpcCb<BfVoid>` (used by all other calls) keeps the
empty one. `tag` is the address of the object, `status_` its completion
status. -/
inductive IGrpcCb where
  | PingCb (tag : Ptr) (status_ : Status)
  | GrpcCb (tag : Ptr) (status_ : Status)
  deriving DecidableEq, Repr

/-- Address of the callback object. -/
def IGrpcCb.tag : IGrpcCb → Ptr
  | IGrpcCb.PingCb t _ => t
  | IGrpcCb.GrpcCb t _ => t

/-- Virtual `operator()`. Callbacks found on the queue of a client were
created by that client, so `robotClient_` of a `PingCb` is the client whose
worker runs it. -/
def IGrpcCb.call : IGrpcCb → RobotClient → RobotClient
  | IGrpcCb.PingCb _ st, c => PingCb.call st c
  | IGrpcCb.GrpcCb _ _, c => c

/-- One answer of `cq_.Next(&pTag, &ok)`: either `result == true` with a tag
and the `ok` flag, or `result == false` (queue shut down and drained). -/
inductive NextResult where
  | ready (pTag : IGrpcCb) (ok : Bool)
  | shutdown
  deriving DecidableEq, Repr

/-- What the drain worker does, in its own program order. -/
inductive DrainEvent where
  /-- Ran `(*pCb)()` on the callback at this address. -/
  | callbackRun (tag : Ptr)
  /-- The `unique_ptr` went out of scope: the callback object was deleted. -/
  | callbackDeleted (tag : Ptr)
  deriving DecidableEq, Repr

/-- How the worker function ends for a given sequence of answers of `Next`:
the loop left through `break`, or `Next` never answers again. -/
inductive DrainOutcome where
  | exited (c : RobotClient) (trace : List DrainEvent) (unread : List NextResult)
  | blocked (c : RobotClient) (trace : List DrainEvent)
  deriving DecidableEq, Repr

/-- The lambda `fn` run by `cq_thread_`: `for (;;)` around `cq_.Next`. The
first argument lists the answers `Next` gives, in order; `trace` is what the
worker did so far. -/
def cq_thread_fn : List NextResult → RobotClient → List DrainEvent → DrainOutcome
  | [], c, trace => DrainOutcome.blocked c trace
  | NextResult.shutdown :: unread, c, trace => DrainOutcome.exited c trace unread
  | NextResult.ready pCb _ :: later, c, trace =>
      cq_thread_fn later (pCb.call c)
        (trace ++ [DrainEvent.callbackRun pCb.tag, DrainEvent.callbackDeleted pCb.tag])

/-! ## QString order -/

/-- Lexicographic comparison of two character sequences. -/
def ltChars : List Char → List Char → Bool
  | [], [] => false
  | [], _ :: _ => true
  | _ :: _, [] => false
  | a :: as, b :: bs =>
      if a < b then true
      else if b < a then false
      else ltChars as bs

/-- `operator<` of `QString`, the order `QMap` sorts its keys by: lexicographic
on the characters. Qt compares UTF-16 code units; the two orders agree on text
without characters outside the Basic Multilingual Plane. -/
def QString.lt (a b : String) : Bool := ltChars a.data b.data

/-! ## QMap -/

/-- `QMap<QString, V>` as the list of its nodes in iteration order. -/
abbrev QMap (V : Type) := List (String × V)

namespace QMap

variable {V : Type}

/-- The invariant of `QMap`: keys strictly ascending. -/
def WF (m : QMap V) : Prop :=
  (m.map Prod.fst).Pairwise (fun a b => QString.lt a b = true)

instance (m : QMap V) : Decidable (WF m) := by
  unfold WF
  infer_instance

/-- `QMap::contains(key)`. -/
def contains : QMap V → String → Bool
  | [], _ => false
  | (k, _) :: rest, key => if k = key then true else contains rest key

/-- Value stored under `key`, as read through `operator[]` when the key is
present. -/
def value : QMap V → String → Option V
  | [], _ => none
  | (k, w) :: rest, key => if k = key then some w else value rest key

/-- `QMap::remove(key)`: removes all nodes with that key. -/
def remove : QMap V → String → QMap V
  | [], _ => []
  | (k, w) :: rest, key => if k = key then remove rest key else (k, w) :: remove rest key

/-- Assignment `m[key] = v`: overwrites the node of `key`, or inserts a new
node at the place the key order gives it. -/
def set : QMap V → String → V → QMap V
  | [], key, v => [(key, v)]
  | (k, w) :: rest, key, v =>
      if QString.lt key k then (key, v) :: (k, w) :: rest
      else if QString.lt k key then (k, w) :: set rest key v
      else (key, v) :: rest

/-- Values in iteration order (`for (auto client : clients_)`). -/
def values (m : QMap V) : List V := m.map Prod.snd

/-- `QMap::size()`. -/
def size (m : QMap V) : Nat := m.length

end QMap

/-! ## PushService -/

/-- The `QTimer` behind `pingTimer_`. -/
structure QTimer where
  interval : Nat
  active : Bool
  deriving DecidableEq, Repr

/-- Modelled from the spec: the class declaration (`pushservice.h`) is not
among the sources. The two members are the ones `pushservice.cpp` uses: the
registry `clients_` (robot id to connection) and the health timer
`pingTimer_`, a pointer that is null until `init()`. -/
structure PushService where
  pingTimer_ : Option QTimer
  clients_ : QMap RobotClient
  deriving DecidableEq, Repr

namespace PushService

/-- State after the constructor `PushService(QObject* parent)`. -/
def new : PushService := { pingTimer_ := none, clients_ := [] }

/-- `void PushService::init()`. -/
def init (s : PushService) : PushService × List Event :=
  ({ s with pingTimer_ := some { interval := 5 * 1000, active := true } },
   [Event.timerStarted (5 * 1000)])

/-- The loop `for (auto client : clients_) { delete client; }`. -/
def deleteAll : List RobotClient → List Event
  | [] => []
  | client :: rest => client.dtor ++ deleteAll rest

/-- `void PushService::shutdown()`. `none` when `pingTimer_` is null: the
first statement then dereferences a null pointer. -/
def shutdown (s : PushService) : Option (PushService × List Event) :=
  match s.pingTimer_ with
  | none => none
  | some _ =>
      some ({ pingTimer_ := none, clients_ := [] },
            [Event.timerStopped, Event.timerDeleted] ++ deleteAll (QMap.values s.clients_))

/-- The `sprintf("%s:%d", clientip, clientport)` of `connectRobot`. -/
def endpointOf (req : BfConnectReq) : String :=
  QString.fromCStr req.clientip ++ ":" ++ toString req.clientport

/-- `delete clients_[robotId]` for a key that may be present: deleting a null
pointer does nothing. -/
def deleteValue (m : QMap RobotClient) (robotId : String) : List Event :=
  match QMap.value m robotId with
  | some it => it.dtor
  | none => []

/-- `void PushService::connectRobot(QString ctaId, const BfConnectReq& req)`;
`p` is the address `new RobotClient` returns. -/
def connectRobot (p : Ptr) (ctaId : String) (req : BfConnectReq) (s : PushService) :
    PushService × List Event :=
  let endpoint := endpointOf req
  let robotId := QString.fromCStr req.clientid
  let made := RobotClient.ctor p endpoint ctaId req
  let client := made.1
  let built := Event.channelCreated p endpoint :: made.2
  if QMap.contains s.clients_ robotId then
    ({ s with clients_ := QMap.set (QMap.remove s.clients_ robotId) robotId client },
     built ++ deleteValue s.clients_ robotId)
  else
    ({ s with clients_ := QMap.set s.clients_ robotId client }, built)

/-- `void PushService::disconnectRobot(QString robotId)`. -/
def disconnectRobot (robotId : String) (s : PushService) : PushService × List Event :=
  if QMap.contains s.clients_ robotId then
    ({ s with clients_ := QMap.remove s.clients_ robotId }, deleteValue s.clients_ robotId)
  else
    (s, [])

/-- `void PushService::onCtaClosed()`. -/
def onCtaClosed (s : PushService) : PushService × List Event :=
  ({ s with clients_ := [] }, deleteAll (QMap.values s.clients_))

/-- The loop `for (auto client : clients_) { client->OnPing(data); }`. -/
def pingAll (data : BfPingData) : List RobotClient → List Event
  | [] => []
  | client :: rest => client.OnPing data ++ pingAll data rest

/-- `void PushService::onPing()`. -/
def onPing (s : PushService) : PushService × List Event :=
  let data : BfPingData := { message := "cta" }
  (s, pingAll data (QMap.values s.clients_))

/-- `void PushService::onGotTick(const BfTickData& bfItem)`: the body is
empty. -/
def onGotTick (s : PushService) (_bfItem : BfTickData) : PushService × List Event :=
  (s, [])

end PushService

/-! ## Service as a state machine -/

/-- The entry points of `PushService`, with their arguments. -/
inductive Op where
  | init
  | shutdown
  | connectRobot (p : Ptr) (ctaId : String) (req : BfConnectReq)
  | disconnectRobot (robotId : String)
  | onCtaClosed
  | onPing
  | onGotTick (bfItem : BfTickData)
  deriving DecidableEq, Repr

/-- One call of an entry point; `none` when the call faults. -/
def PushService.step (s : PushService) : Op → Option (PushService × List Event)
  | Op.init => some s.init
  | Op.shutdown => s.shutdown
  | Op.connectRobot p ctaId req => some (PushService.connectRobot p ctaId req s)
  | Op.disconnectRobot robotId => some (PushService.disconnectRobot robotId s)
  | Op.onCtaClosed => some s.onCtaClosed
  | Op.onPing => some s.onPing
  | Op.onGotTick bfItem => some (s.onGotTick bfItem)

/-- A sequence of calls on the owner context, with the concatenated trace. -/
def PushService.run : PushService → List Op → Option (PushService × List Event)
  | s, [] => some (s, [])
  | s, op :: ops =>
      match s.step op with
      | none => none
      | some (s1, t1) =>
          match PushService.run s1 ops with
          | none => none
          | some (s2, t2) => some (s2, t1 ++ t2)

/-- The arguments of one `connectRobot` call. -/
structure ConnectCall where
  p : Ptr
  ctaId : String
  req : BfConnectReq
  deriving DecidableEq, Repr

/-- The connection `connectRobot` builds for a call. -/
def ConnectCall.client (c : ConnectCall) : RobotClient :=
  (RobotClient.ctor c.p (PushService.endpointOf c.req) c.ctaId c.req).1

/-- Registry state after a sequence of `connectRobot` calls. -/
def PushService.connectAll : PushService → List ConnectCall → PushService
  | s, [] => s
  | s, c :: cs => PushService.connectAll (PushService.connectRobot c.p c.ctaId c.req s).1 cs

/-! ## Reading traces -/

/-- Workers started in a trace, in order. -/
def started : List Event → List Ptr
  | [] => []
  | Event.threadStarted p :: rest => p :: started rest
  | _ :: rest => started rest

/-- Workers joined in a trace, in order. -/
def joined : List Event → List Ptr
  | [] => []
  | Event.threadWait p :: rest => p :: joined rest
  | _ :: rest => joined rest

/-- Connections whose call-channel state was released in a trace, in order. -/
def destroyed : List Event → List Ptr
  | [] => []
  | Event.stubDestroyed p :: rest => p :: destroyed rest
  | _ :: rest => destroyed rest

/-- Both events occur in the trace and the first `a` comes before the first
`b`. -/
def precedes (a b : Event) (trace : List Event) : Prop :=
  trace.indexOf a < trace.indexOf b ∧ trace.indexOf b < trace.length

instance (a b : Event) (trace : List Event) : Decidable (precedes a b trace) := by
  unfold precedes
  infer_instance

/-- Drain workers active after a trace, given the ones active before it: a
worker is active from `start()` until it has been joined. -/
def activeWorkers : List Ptr → List Event → List Ptr
  | active, [] => active
  | active, Event.threadStarted p :: rest => activeWorkers (active ++ [p]) rest
  | active, Event.threadWait p :: rest => activeWorkers (active.erase p) rest
  | active, _ :: rest => activeWorkers active rest

/-- Events that free something a drain worker uses. -/
def Event.frees : Event → Bool
  | Event.threadDeleted _ => true
  | Event.cqDestroyed _ => true
  | Event.stubDestroyed _ => true
  | _ => false

/-- Addresses of the registered connections, in iteration order. -/
def PushService.handles (s : PushService) : List Ptr :=
  (QMap.values s.clients_).map RobotClient.self

/-- Number of nodes of a map under one key. -/
def QMap.keyCount {V : Type} : QMap V → String → Nat
  | [], _ => 0
  | (k, _) :: rest, key => (if k = key then 1 else 0) + QMap.keyCount rest key

/-! ## Behaviour the specification asks of the tick fan-out -/

/-- Follows the spec's words, not the source: "for every connection whose
subscription matches the event's symbol/exchange and whose corresponding
`wants*` flag is set, invoke the matching send operation". -/
def onGotTick_spec (s : PushService) (bfItem : BfTickData) : PushService × List Event :=
  (s, ((QMap.values s.clients_).filter
        (fun c => c.subscribled bfItem.symbol bfItem.exchange && c.tickHandler)).map
        (fun c => Event.asyncCall c.self (RpcCall.AsyncOnTick bfItem) c.ctaId
          RobotClient.deadline_))

/-- What the drain worker is expected to do with a list of ready callbacks:
run each one, then delete it, in queue order. -/
def expectedDrainTrace : List (IGrpcCb × Bool) → List DrainEvent
  | [] => []
  | r :: rest =>
      DrainEvent.callbackRun r.1.tag :: DrainEvent.callbackDeleted r.1.tag ::
        expectedDrainTrace rest

/-! ## Concrete scenarios -/

/-- Connect request of robot `R1` at `127.0.0.1:9000`, subscribed to `*`. -/
def reqR1Star : BfConnectReq :=
  { clientid := "R1", clientip := "127.0.0.1", clientport := 9000, symbol := "*",
    exchange := "", loghandler := false, tickhandler := true, tradehandler := false }

/-- Reconnect request of `R1`, subscribed to `AAPL` only. -/
def reqR1Aapl : BfConnectReq := { reqR1Star with symbol := "AAPL" }

/-- Connect request of a second robot `R2`. -/
def reqR2 : BfConnectReq :=
  { clientid := "R2", clientip := "127.0.0.1", clientport := 9001, symbol := "MSFT",
    exchange := "", loghandler := true, tickhandler := false, tradehandler := true }

/-- Service after `init()` and `connectRobot("cta", reqR1Star)`, the
connection placed at address 1. -/
def svcR1 : PushService :=
  (PushService.connectRobot 1 "cta" reqR1Star PushService.new.init.1).1

/-- Service with `R1` (address 1) and `R2` (address 2) connected. -/
def svcR1R2 : PushService := (PushService.connectRobot 2 "cta" reqR2 svcR1).1

/-- Service on which `shutdown()` has deleted the timer and `R1` has then been
connected again (address 2): `pingTimer_` is null, the registry holds `R1`. -/
def svcNullTimer : PushService :=
  (PushService.connectRobot 2 "cta" reqR1Star
    { pingTimer_ := none, clients_ := [] }).1

/-- Tick for `AAPL`. -/
def tickAapl : BfTickData := { symbol := "AAPL", exchange := "NASDAQ", payload := 0 }

/-- Completion status of a call that ran into its deadline. -/
def statusDeadline : Status :=
  { ok := false, error_code := 4, error_message := "Deadline Exceeded" }

/-- Completion status of a call that succeeded. -/
def statusOk : Status := { ok := true, error_code := 0, error_message := "" }

/-- Connection whose ping failure counter is at `INT32_MAX`. -/
def clientAtMax : RobotClient :=
  { self := 1, stub_ := "127.0.0.1:9000", pingfail_count_ := INT32_MAX, ctaId_ := "cta",
    req_ := reqR1Star }

/-! ## Subscription filter -/

/-- C1. `subscribled(symbol, exchange)` is true exactly when the request's
subscription symbol is `*` or equals `symbol`, and its result is the same for
any other exchange argument and any other exchange field of the request. -/
theorem subscribled_iff_wildcard_or_equal (c : RobotClient) (symbol exchange : String) :
    (c.subscribled symbol exchange = true ↔ (c.req_.symbol = "*" ∨ symbol = c.req_.symbol))
    ∧ (∀ (exchange2 reqExchange : String),
        RobotClient.subscribled { c with req_ := { c.req_ with exchange := reqExchange } }
          symbol exchange2 = c.subscribled symbol exchange) := by
  refine ⟨?_, ?_⟩
  · unfold RobotClient.subscribled
    by_cases h1 : c.req_.symbol = "*"
    · simp [h1]
    · by_cases h2 : symbol = c.req_.symbol
      · simp [h2]
      · simp [h1, h2]
  · intro exchange2 reqExchange
    rfl

/-! ## Key order -/

theorem ltChars_irrefl (a : List Char) : ltChars a a = false := by
  induction a with
  | nil => rfl
  | cons x xs ih => simp [ltChars, ih]

theorem ltChars_trans : ∀ (a b c : List Char),
    ltChars a b = true → ltChars b c = true → ltChars a c = true
  | [], [], _, h, _ => by simp [ltChars] at h
  | [], _ :: _, [], _, h => by simp [ltChars] at h
  | [], _ :: _, _ :: _, _, _ => by simp [ltChars]
  | _ :: _, [], _, h, _ => by simp [ltChars] at h
  | _ :: _, _ :: _, [], _, h => by simp [ltChars] at h
  | x :: xs, y :: ys, z :: zs, h1, h2 => by
      simp only [ltChars] at h1 h2 ⊢
      rcases lt_trichotomy x y with hxy | hxy | hxy
      · rcases lt_trichotomy y z with hyz | hyz | hyz
        · simp [lt_trans hxy hyz]
        · subst hyz; simp [hxy]
        · simp [hyz, not_lt_of_lt hyz] at h2
      · subst hxy
        rcases lt_trichotomy x z with hyz | hyz | hyz
        · simp [hyz]
        · subst hyz
          simp only [lt_irrefl, if_false] at h1 h2 ⊢
          exact ltChars_trans xs ys zs h1 h2
        · simp [hyz, not_lt_of_lt hyz] at h2
      · simp [hxy, not_lt_of_lt hxy] at h1

theorem ltChars_total : ∀ (a b : List Char),
    ltChars a b = false → ltChars b a = false → a = b
  | [], [], _, _ => rfl
  | [], _ :: _, h, _ => by simp [ltChars] at h
  | _ :: _, [], _, h => by simp [ltChars] at h
  | x :: xs, y :: ys, h1, h2 => by
      simp only [ltChars] at h1 h2
      rcases lt_trichotomy x y with hxy | hxy | hxy
      · simp [hxy] at h1
      · subst hxy
        simp only [lt_irrefl, if_false] at h1 h2
        rw [ltChars_total xs ys h1 h2]
      · simp [hxy] at h2

theorem QString.lt_irrefl (a : String) : QString.lt a a = false :=
  ltChars_irrefl a.data

theorem QString.lt_trans {a b c : String} (h1 : QString.lt a b = true)
    (h2 : QString.lt b c = true) : QString.lt a c = true :=
  ltChars_trans a.data b.data c.data h1 h2

theorem QString.eq_of_not_lt {a b : String} (h1 : QString.lt a b = false)
    (h2 : QString.lt b a = false) : a = b := by
  have h := ltChars_total a.data b.data h1 h2
  cases a; cases b; simp_all

theorem QString.ne_of_lt {a b : String} (h : QString.lt a b = true) : a ≠ b := by
  intro hab
  subst hab
  rw [QString.lt_irrefl] at h
  exact Bool.false_ne_true h

/-! ## Map lemmas -/

namespace QMap
variable {V : Type}

theorem keyCount_eq_zero_iff (m : QMap V) (key : String) :
    keyCount m key = 0 ↔ contains m key = false := by
  induction m with
  | nil => simp [keyCount, contains]
  | cons e rest ih =>
      obtain ⟨k, w⟩ := e
      by_cases h : k = key
      · simp [keyCount, contains, h]
      · simp [keyCount, contains, h, ih]

theorem keyCount_remove_self (m : QMap V) (key : String) :
    keyCount (remove m key) key = 0 := by
  induction m with
  | nil => simp [keyCount, remove]
  | cons e rest ih =>
      obtain ⟨k, w⟩ := e
      by_cases h : k = key
      · simp [remove, h, ih]
      · simp [remove, keyCount, h, ih]

theorem remove_of_keyCount_zero (m : QMap V) (key : String) (h : keyCount m key = 0) :
    remove m key = m := by
  induction m with
  | nil => rfl
  | cons e rest ih =>
      obtain ⟨k, w⟩ := e
      by_cases hk : k = key
      · simp [keyCount, hk] at h
      · simp [keyCount, hk] at h
        simp [remove, hk, ih h]

theorem remove_set (m : QMap V) (key : String) (v : V) (h : keyCount m key = 0) :
    remove (set m key v) key = m := by
  induction m with
  | nil => simp [set, remove]
  | cons e rest ih =>
      obtain ⟨k, w⟩ := e
      have hk : k ≠ key := by
        intro hk
        simp [keyCount, hk] at h
      have hrest : keyCount rest key = 0 := by
        simpa [keyCount, hk] using h
      unfold set
      by_cases h1 : QString.lt key k = true
      · simp [h1, remove, hk, remove_of_keyCount_zero rest key hrest]
      · by_cases h2 : QString.lt k key = true
        · simp [h1, h2, remove, hk, ih hrest]
        · exact absurd (QString.eq_of_not_lt (by simpa using h2) (by simpa using h1)) hk

theorem size_set (m : QMap V) (key : String) (v : V) (h : keyCount m key = 0) :
    size (set m key v) = size m + 1 := by
  induction m with
  | nil => simp [set, size]
  | cons e rest ih =>
      obtain ⟨k, w⟩ := e
      have hk : k ≠ key := by
        intro hk
        simp [keyCount, hk] at h
      have hrest : keyCount rest key = 0 := by
        simpa [keyCount, hk] using h
      unfold set
      by_cases h1 : QString.lt key k = true
      · simp [h1, size]
      · by_cases h2 : QString.lt k key = true
        · have := ih hrest
          simp only [size] at this
          simp [h1, h2, size, this]
        · exact absurd (QString.eq_of_not_lt (by simpa using h2) (by simpa using h1)) hk

theorem value_set_self (m : QMap V) (key : String) (v : V) :
    value (set m key v) key = some v := by
  induction m with
  | nil => simp [set, value]
  | cons e rest ih =>
      obtain ⟨k, w⟩ := e
      unfold set
      by_cases h1 : QString.lt key k = true
      · simp [h1, value]
      · by_cases h2 : QString.lt k key = true
        · have hk : k ≠ key := QString.ne_of_lt h2
          simp [h1, h2, value, hk, ih]
        · simp [h1, h2, value]

theorem keyCount_set_self (m : QMap V) (key : String) (v : V) (h : keyCount m key = 0) :
    keyCount (set m key v) key = 1 := by
  induction m with
  | nil => simp [set, keyCount]
  | cons e rest ih =>
      obtain ⟨k, w⟩ := e
      have hk : k ≠ key := by
        intro hk
        simp [keyCount, hk] at h
      have hrest : keyCount rest key = 0 := by
        simpa [keyCount, hk] using h
      unfold set
      by_cases h1 : QString.lt key k = true
      · simp [h1, keyCount, hk, hrest]
      · by_cases h2 : QString.lt k key = true
        · simp [h1, h2, keyCount, hk, ih hrest]
        · exact absurd (QString.eq_of_not_lt (by simpa using h2) (by simpa using h1)) hk

theorem value_remove_of_ne (m : QMap V) (key other : String) (h : other ≠ key) :
    value (remove m key) other = value m other := by
  induction m with
  | nil => rfl
  | cons e rest ih =>
      obtain ⟨k, w⟩ := e
      by_cases he : k = key
      · have hne : ¬ k = other := by rw [he]; exact fun h2 => h h2.symm
        rw [remove, if_pos he, value, if_neg hne]
        exact ih
      · by_cases ho : k = other
        · rw [remove, if_neg he, value, if_pos ho, value, if_pos ho]
        · rw [remove, if_neg he, value, if_neg ho, value, if_neg ho]
          exact ih

theorem size_remove (m : QMap V) (key : String) :
    size (remove m key) + keyCount m key = size m := by
  induction m with
  | nil => rfl
  | cons e rest ih =>
      obtain ⟨k, w⟩ := e
      simp only [size] at ih
      by_cases he : k = key
      · simp [remove, keyCount, size, he]; omega
      · simp [remove, keyCount, size, he]; omega

theorem mem_keys_remove (m : QMap V) (key a : String)
    (h : a ∈ (remove m key).map Prod.fst) : a ∈ m.map Prod.fst := by
  induction m with
  | nil => simp [remove] at h
  | cons e rest ih =>
      obtain ⟨k, w⟩ := e
      by_cases he : k = key
      · simp only [remove, he, if_true] at h
        exact List.mem_cons_of_mem _ (ih h)
      · simp only [remove, he, if_false, List.map_cons, List.mem_cons] at h
        rcases h with h | h
        · simp [h]
        · exact List.mem_cons_of_mem _ (ih h)

theorem WF_remove (m : QMap V) (key : String) (h : WF m) : WF (remove m key) := by
  induction m with
  | nil => simpa [remove] using h
  | cons e rest ih =>
      obtain ⟨k, w⟩ := e
      have h2 : (∀ a ∈ rest.map Prod.fst, QString.lt k a = true) ∧ WF rest := by
        simpa [WF] using h
      by_cases he : k = key
      · rw [remove, if_pos he]
        exact ih h2.2
      · rw [remove, if_neg he]
        have h3 := ih h2.2
        unfold WF at h3 ⊢
        rw [List.map_cons, List.pairwise_cons]
        exact ⟨fun a ha => h2.1 a (mem_keys_remove rest key a ha), h3⟩

theorem mem_keys_set (m : QMap V) (key : String) (v : V) (a : String)
    (h : a ∈ (set m key v).map Prod.fst) : a = key ∨ a ∈ m.map Prod.fst := by
  induction m with
  | nil => simpa [set] using h
  | cons e rest ih =>
      obtain ⟨k, w⟩ := e
      unfold set at h
      by_cases h1 : QString.lt key k = true
      · rw [if_pos h1] at h
        simpa using h
      · rw [if_neg h1] at h
        by_cases h2 : QString.lt k key = true
        · rw [if_pos h2, List.map_cons, List.mem_cons] at h
          rcases h with h3 | h3
          · simp [h3]
          · rcases ih h3 with h4 | h4
            · exact Or.inl h4
            · exact Or.inr (List.mem_cons_of_mem _ h4)
        · rw [if_neg h2, List.map_cons, List.mem_cons] at h
          rcases h with h3 | h3
          · exact Or.inl h3
          · exact Or.inr (List.mem_cons_of_mem _ h3)

theorem WF_set (m : QMap V) (key : String) (v : V) (h : WF m) : WF (set m key v) := by
  induction m with
  | nil => simp [set, WF]
  | cons e rest ih =>
      obtain ⟨k, w⟩ := e
      have h0 : (∀ a ∈ rest.map Prod.fst, QString.lt k a = true) ∧ WF rest := by
        simpa [WF] using h
      unfold set
      by_cases h1 : QString.lt key k = true
      · rw [if_pos h1]
        unfold WF at h ⊢
        rw [List.map_cons, List.pairwise_cons]
        refine ⟨?_, h⟩
        intro a ha
        rcases List.mem_cons.1 ha with ha | ha
        · rw [ha]; exact h1
        · exact QString.lt_trans h1 (h0.1 a ha)
      · rw [if_neg h1]
        by_cases h2 : QString.lt k key = true
        · rw [if_pos h2]
          have h3 := ih h0.2
          unfold WF at h3 ⊢
          rw [List.map_cons, List.pairwise_cons]
          refine ⟨?_, h3⟩
          intro a ha
          rcases mem_keys_set rest key v a ha with ha | ha
          · rw [ha]; exact h2
          · exact h0.1 a ha
        · rw [if_neg h2]
          have hk : key = k :=
            QString.eq_of_not_lt (by simpa using h1) (by simpa using h2)
          rw [hk]
          exact h

theorem keyCount_zero_of_all_gt (m : QMap V) (key : String)
    (h : ∀ a ∈ m.map Prod.fst, QString.lt key a = true) : keyCount m key = 0 := by
  induction m with
  | nil => rfl
  | cons e rest ih =>
      obtain ⟨k, w⟩ := e
      have hk : k ≠ key := fun hk => QString.ne_of_lt (h k (by simp)) hk.symm
      simp only [keyCount, hk, if_false, Nat.zero_add]
      exact ih (fun a ha => h a (List.mem_cons_of_mem _ ha))

theorem keyCount_le_one (m : QMap V) (key : String) (h : WF m) : keyCount m key ≤ 1 := by
  induction m with
  | nil => simp [keyCount]
  | cons e rest ih =>
      obtain ⟨k, w⟩ := e
      have h0 : (∀ a ∈ rest.map Prod.fst, QString.lt k a = true) ∧ WF rest := by
        simpa [WF] using h
      by_cases he : k = key
      · have := keyCount_zero_of_all_gt rest key (by rw [← he]; exact h0.1)
        simp [keyCount, he, this]
      · simp only [keyCount, he, if_false, Nat.zero_add]
        exact ih h0.2

theorem keyCount_eq_one (m : QMap V) (key : String) (h : WF m)
    (hc : contains m key = true) : keyCount m key = 1 := by
  have h1 := keyCount_le_one m key h
  have h2 : keyCount m key ≠ 0 := by
    intro h0
    rw [(keyCount_eq_zero_iff m key).1 h0] at hc
    exact Bool.false_ne_true hc
  omega

theorem value_isSome_of_contains (m : QMap V) (key : String) (hc : contains m key = true) :
    ∃ v, value m key = some v := by
  induction m with
  | nil => simp [contains] at hc
  | cons e rest ih =>
      obtain ⟨k, w⟩ := e
      by_cases he : k = key
      · exact ⟨w, by simp [value, he]⟩
      · simp only [contains, he, if_false] at hc
        obtain ⟨v, hv⟩ := ih hc
        exact ⟨v, by simp [value, he, hv]⟩

theorem contains_of_value (m : QMap V) (key : String) (v : V) (hv : value m key = some v) :
    contains m key = true := by
  induction m with
  | nil => simp [value] at hv
  | cons e rest ih =>
      obtain ⟨k, w⟩ := e
      by_cases he : k = key
      · simp [contains, he]
      · simp only [value, he, if_false] at hv
        simp [contains, he, ih hv]

end QMap

/-! ## Ping failure counter -/

/-- Values inside the `int32_t` range are not changed by wrapping. -/
theorem wrapInt32_of_range (z : Int) (hlo : INT32_MIN ≤ z) (hhi : z ≤ INT32_MAX) :
    wrapInt32 z = z := by
  unfold wrapInt32
  unfold INT32_MIN at hlo
  unfold INT32_MAX at hhi
  omega

/-- C2, as stated, fails at the top of the counter's range: a failed ping on
a connection whose counter is `INT32_MAX` leaves the counter at `INT32_MIN`,
not at `n + 1`. -/
theorem pingCb_counter_wraps_at_int32_max :
    (PingCb.call statusDeadline clientAtMax).pingFailCount = INT32_MIN
    ∧ ¬ ((PingCb.call statusDeadline clientAtMax).pingFailCount
          = clientAtMax.pingFailCount + 1) := by
  decide

/-- C2 (amended). `PingCb::operator()` with an ok status leaves the counter
at 0 whatever it was before, with no condition on the old value. With a non-ok
status it leaves the wrapped successor of the old value `n`, which is exactly
`n + 1` for every `int32_t` value `n` below `INT32_MAX`. -/
theorem pingCb_counter (c : RobotClient) (status_ : Status) :
    (status_.ok = true → (PingCb.call status_ c).pingFailCount = 0)
    ∧ (status_.ok = false →
        (PingCb.call status_ c).pingFailCount = wrapInt32 (c.pingFailCount + 1))
    ∧ (status_.ok = false → INT32_MIN ≤ c.pingFailCount → c.pingFailCount < INT32_MAX →
        (PingCb.call status_ c).pingFailCount = c.pingFailCount + 1) := by
  have hfail : status_.ok = false →
      (PingCb.call status_ c).pingFailCount = wrapInt32 (c.pingFailCount + 1) := by
    intro hok
    simp [PingCb.call, hok, RobotClient.incPingFailCount, RobotClient.pingFailCount]
  refine ⟨?_, hfail, ?_⟩
  · intro hok
    simp [PingCb.call, hok, RobotClient.resetPingFailCount, RobotClient.pingFailCount]
  · intro hok hlo hhi
    rw [hfail hok]
    apply wrapInt32_of_range
    · unfold INT32_MIN at *
      omega
    · unfold INT32_MAX at *
      omega

/-- Scenario: a ping that runs into its deadline on a fresh connection gives
counter 1, a following successful ping gives 0; a successful ping also resets
a counter that stands at `INT32_MAX`. -/
theorem pingCb_counter_timeout_then_success :
    (PingCb.call statusDeadline
        (RobotClient.ctor 1 "127.0.0.1:9000" "cta" reqR1Star).1).pingFailCount = 1
    ∧ (PingCb.call statusOk
        (PingCb.call statusDeadline
          (RobotClient.ctor 1 "127.0.0.1:9000" "cta" reqR1Star).1)).pingFailCount = 0
    ∧ (PingCb.call statusOk clientAtMax).pingFailCount = 0 :=
  ⟨(pingCb_counter (RobotClient.ctor 1 "127.0.0.1:9000" "cta" reqR1Star).1
      statusDeadline).2.2 rfl (by decide) (by decide),
   (pingCb_counter
      (PingCb.call statusDeadline (RobotClient.ctor 1 "127.0.0.1:9000" "cta" reqR1Star).1)
      statusOk).1 rfl,
   (pingCb_counter clientAtMax statusOk).1 rfl⟩

/-! ## Tick fan-out -/

/-- C3, as stated, fails: with `R1` registered, subscribed to `*` and with
its tick handler set, `onGotTick` for an `AAPL` tick issues no `OnTick` call
on `R1`, and so differs from the fan-out the specification describes. -/
theorem onGotTick_misses_subscribed_client :
    (∃ c ∈ QMap.values svcR1.clients_,
        c.subscribled tickAapl.symbol tickAapl.exchange = true ∧ c.tickHandler = true
        ∧ ∀ e ∈ c.OnTick tickAapl, e ∉ (svcR1.onGotTick tickAapl).2)
    ∧ svcR1.onGotTick tickAapl ≠ onGotTick_spec svcR1 tickAapl := by
  refine ⟨⟨(RobotClient.ctor 1 "127.0.0.1:9000" "cta" reqR1Star).1,
    by decide, by decide, by decide, ?_⟩, by decide⟩
  intro e _
  simp [PushService.onGotTick]

/-- C3 (amended). For every registry state and every tick event,
`onGotTick` leaves the service unchanged and invokes `OnTick` on no
connection, whatever its subscription and tick handler flag are. -/
theorem onGotTick_forwards_nothing (s : PushService) (bfItem : BfTickData) :
    (s.onGotTick bfItem).1 = s
    ∧ (s.onGotTick bfItem).2 = []
    ∧ ∀ (c : RobotClient), ∀ e ∈ c.OnTick bfItem, e ∉ (s.onGotTick bfItem).2 := by
  refine ⟨rfl, rfl, ?_⟩
  intro c e _
  simp [PushService.onGotTick]

/-! ## Health ping -/

/-- The ping loop issues one `AsyncOnPing` per connection, in order. -/
theorem pingAll_eq_map (data : BfPingData) (l : List RobotClient) :
    PushService.pingAll data l
      = l.map (fun c => Event.asyncCall c.self (RpcCall.AsyncOnPing data) c.ctaId_ 500) := by
  induction l with
  | nil => rfl
  | cons c rest ih =>
      simp [PushService.pingAll, RobotClient.OnPing, RobotClient.ctaId,
        RobotClient.deadline_, ih]

/-- C8. `onPing` leaves the service unchanged and its trace is exactly one
`AsyncOnPing` call per registered connection, in iteration order, each with
the same payload (message `cta`). -/
theorem onPing_pings_every_client_once (s : PushService) :
    (s.onPing).1 = s
    ∧ (s.onPing).2
        = (QMap.values s.clients_).map
            (fun c => Event.asyncCall c.self (RpcCall.AsyncOnPing { message := "cta" })
              c.ctaId_ 500)
    ∧ (s.onPing).2.length = QMap.size s.clients_ := by
  refine ⟨rfl, ?_, ?_⟩
  · simp [PushService.onPing, pingAll_eq_map]
  · simp [PushService.onPing, pingAll_eq_map, QMap.values, QMap.size]

/-! ## Drain loop -/

/-- Running the loop over a run of ready callbacks. -/
theorem cq_thread_fn_append (ready : List (IGrpcCb × Bool)) (later : List NextResult)
    (c : RobotClient) (trace : List DrainEvent) :
    cq_thread_fn (ready.map (fun r => NextResult.ready r.1 r.2) ++ later) c trace
      = cq_thread_fn later (ready.foldl (fun acc r => r.1.call acc) c)
          (trace ++ expectedDrainTrace ready) := by
  induction ready generalizing c trace with
  | nil => simp [expectedDrainTrace]
  | cons r rest ih =>
      simp [cq_thread_fn, ih, expectedDrainTrace]

/-- C9. When the queue yields the callbacks `ready` and then reports
shutdown, the drain loop exits; it has run every ready callback once, in queue
order, deleting each one right after its run, and it has read nothing of what
the queue would yield after the shutdown answer. -/
theorem cq_thread_fn_drains_in_order (ready : List (IGrpcCb × Bool))
    (unread : List NextResult) (c : RobotClient) :
    cq_thread_fn (ready.map (fun r => NextResult.ready r.1 r.2)
        ++ NextResult.shutdown :: unread) c []
      = DrainOutcome.exited (ready.foldl (fun acc r => r.1.call acc) c)
          (expectedDrainTrace ready) unread := by
  rw [cq_thread_fn_append]
  simp [cq_thread_fn]

/-! ## Destructor -/

/-- C10. The destructor signals queue shutdown, then joins the worker, then
frees the worker, the queue and the call-channel state: the join comes after
the shutdown and before every freeing step. -/
theorem dtor_shutdown_join_free (c : RobotClient) :
    c.dtor = [Event.cqShutdown c.self, Event.threadQuit c.self, Event.threadWait c.self,
              Event.threadDeleted c.self, Event.cqDestroyed c.self,
              Event.stubDestroyed c.self]
    ∧ precedes (Event.cqShutdown c.self) (Event.threadWait c.self) c.dtor
    ∧ precedes (Event.threadWait c.self) (Event.threadDeleted c.self) c.dtor
    ∧ precedes (Event.threadWait c.self) (Event.cqDestroyed c.self) c.dtor
    ∧ precedes (Event.threadWait c.self) (Event.stubDestroyed c.self) c.dtor
    ∧ (∀ (i j : Nat) (e : Event), c.dtor.get? i = some e → e.frees = true →
        c.dtor.get? j = some (Event.threadWait c.self) → j < i) := by
  refine ⟨rfl, ?_, ?_, ?_, ?_, ?_⟩
  · simp [precedes, RobotClient.dtor, List.indexOf, List.findIdx, List.findIdx.go,
      Bool.cond_eq_ite]
  · simp [precedes, RobotClient.dtor, List.indexOf, List.findIdx, List.findIdx.go,
      Bool.cond_eq_ite]
  · simp [precedes, RobotClient.dtor, List.indexOf, List.findIdx, List.findIdx.go,
      Bool.cond_eq_ite]
  · simp [precedes, RobotClient.dtor, List.indexOf, List.findIdx, List.findIdx.go,
      Bool.cond_eq_ite]
  · intro i j e hi hf hj
    unfold RobotClient.dtor at hi hj
    have hj2 : j = 2 := by
      match j, hj with
      | 0, hj => simp at hj
      | 1, hj => simp at hj
      | 2, _ => rfl
      | 3, hj => simp at hj
      | 4, hj => simp at hj
      | 5, hj => simp at hj
      | n + 6, hj => simp at hj
    subst hj2
    match i, hi with
    | 0, hi => simp at hi; subst hi; simp [Event.frees] at hf
    | 1, hi => simp at hi; subst hi; simp [Event.frees] at hf
    | 2, hi => simp at hi; subst hi; simp [Event.frees] at hf
    | n + 3, _ => omega

open PushService

/-! ## Trace lemmas -/

/-- Reading the started workers distributes over concatenation. -/
theorem started_append (a b : List Event) : started (a ++ b) = started a ++ started b := by
  induction a with
  | nil => rfl
  | cons e rest ih => cases e <;> simp [started, ih]

/-- Reading the joined workers distributes over concatenation. -/
theorem joined_append (a b : List Event) : joined (a ++ b) = joined a ++ joined b := by
  induction a with
  | nil => rfl
  | cons e rest ih => cases e <;> simp [joined, ih]

/-- Reading the destroyed connections distributes over concatenation. -/
theorem destroyed_append (a b : List Event) :
    destroyed (a ++ b) = destroyed a ++ destroyed b := by
  induction a with
  | nil => rfl
  | cons e rest ih => cases e <;> simp [destroyed, ih]

/-- Deleting connections starts no worker. -/
theorem started_deleteAll (l : List RobotClient) : started (deleteAll l) = [] := by
  induction l with
  | nil => rfl
  | cons c rest ih => simp [deleteAll, started_append, ih, RobotClient.dtor, started]

/-- Deleting connections joins the worker of each, in order. -/
theorem joined_deleteAll (l : List RobotClient) :
    joined (deleteAll l) = l.map RobotClient.self := by
  induction l with
  | nil => rfl
  | cons c rest ih => simp [deleteAll, joined_append, ih, RobotClient.dtor, joined]

/-- Deleting connections releases the channel state of each, in order. -/
theorem destroyed_deleteAll (l : List RobotClient) :
    destroyed (deleteAll l) = l.map RobotClient.self := by
  induction l with
  | nil => rfl
  | cons c rest ih => simp [deleteAll, destroyed_append, ih, RobotClient.dtor, destroyed]

/-- Pinging starts no worker. -/
theorem started_pingAll (data : BfPingData) (l : List RobotClient) :
    started (pingAll data l) = [] := by
  induction l with
  | nil => rfl
  | cons c rest ih => simp [pingAll, started_append, ih, RobotClient.OnPing, started]

/-- Pinging joins no worker. -/
theorem joined_pingAll (data : BfPingData) (l : List RobotClient) :
    joined (pingAll data l) = [] := by
  induction l with
  | nil => rfl
  | cons c rest ih => simp [pingAll, joined_append, ih, RobotClient.OnPing, joined]

/-! ## Registry after one call -/

/-- The registry after one `connectRobot` call. -/
theorem connectRobot_clients (p : Ptr) (ctaId : String) (req : BfConnectReq)
    (s : PushService) :
    QMap.keyCount (connectRobot p ctaId req s).1.clients_ (QString.fromCStr req.clientid) = 1
    ∧ QMap.value (connectRobot p ctaId req s).1.clients_ (QString.fromCStr req.clientid)
        = some (RobotClient.ctor p (endpointOf req) ctaId req).1
    ∧ QMap.remove (connectRobot p ctaId req s).1.clients_ (QString.fromCStr req.clientid)
        = QMap.remove s.clients_ (QString.fromCStr req.clientid)
    ∧ (QMap.WF s.clients_ → QMap.WF (connectRobot p ctaId req s).1.clients_)
    ∧ (QMap.WF s.clients_ →
        QMap.contains s.clients_ (QString.fromCStr req.clientid) = true →
        QMap.size (connectRobot p ctaId req s).1.clients_ = QMap.size s.clients_)
    ∧ (QMap.contains s.clients_ (QString.fromCStr req.clientid) = false →
        QMap.size (connectRobot p ctaId req s).1.clients_ = QMap.size s.clients_ + 1) := by
  by_cases hc : QMap.contains s.clients_ (QString.fromCStr req.clientid) = true
  · have h0 := QMap.keyCount_remove_self s.clients_ (QString.fromCStr req.clientid)
    simp only [connectRobot, hc, if_true]
    refine ⟨QMap.keyCount_set_self _ _ _ h0, QMap.value_set_self _ _ _, ?_, ?_, ?_, ?_⟩
    · rw [QMap.remove_set _ _ _ h0]
    · intro hwf
      exact QMap.WF_set _ _ _ (QMap.WF_remove _ _ hwf)
    · intro hwf _
      have h1 := QMap.size_set (QMap.remove s.clients_ (QString.fromCStr req.clientid))
        (QString.fromCStr req.clientid)
        (RobotClient.ctor p (endpointOf req) ctaId req).1 h0
      have h2 := QMap.size_remove s.clients_ (QString.fromCStr req.clientid)
      have h3 := QMap.keyCount_eq_one s.clients_ (QString.fromCStr req.clientid) hwf hc
      omega
    · intro hf
      exact absurd hf (by decide)
  · have hc2 : QMap.contains s.clients_ (QString.fromCStr req.clientid) = false := by
      simpa using hc
    have h0 := (QMap.keyCount_eq_zero_iff s.clients_ (QString.fromCStr req.clientid)).2 hc2
    simp only [connectRobot, hc2, Bool.false_eq_true, if_false]
    refine ⟨QMap.keyCount_set_self _ _ _ h0, QMap.value_set_self _ _ _, ?_, ?_, ?_, ?_⟩
    · rw [QMap.remove_set _ _ _ h0, QMap.remove_of_keyCount_zero _ _ h0]
    · intro hwf
      exact QMap.WF_set _ _ _ hwf
    · intro _ ht
      exact absurd ht (by decide)
    · intro _
      exact QMap.size_set _ _ _ h0

/-- Maps that agree after removing a key agree on every other key. -/
theorem value_eq_of_remove_eq {V : Type} (m1 m2 : QMap V) (key other : String)
    (h : QMap.remove m1 key = QMap.remove m2 key) (hne : other ≠ key) :
    QMap.value m1 other = QMap.value m2 other := by
  rw [← QMap.value_remove_of_ne m1 key other hne, ← QMap.value_remove_of_ne m2 key other hne, h]

/-- C4. After every non-empty sequence of `connectRobot` calls carrying the
same robot id (`last` being the most recent one), the registry has exactly one
node for that id, it holds the connection built from `last`, all nodes of
other ids are the ones from before the sequence, and the number of entries is
unchanged when the id was already registered (one more when it was not). -/
theorem connectRobot_same_id_sequence (s : PushService) (hs : QMap.WF s.clients_)
    (robotId : String) (calls : List ConnectCall) (last : ConnectCall)
    (hid : ∀ c ∈ calls ++ [last], QString.fromCStr c.req.clientid = robotId) :
    QMap.keyCount (connectAll s (calls ++ [last])).clients_ robotId = 1
    ∧ QMap.value (connectAll s (calls ++ [last])).clients_ robotId = some last.client
    ∧ QMap.remove (connectAll s (calls ++ [last])).clients_ robotId
        = QMap.remove s.clients_ robotId
    ∧ (∀ other : String, other ≠ robotId →
        QMap.value (connectAll s (calls ++ [last])).clients_ other
          = QMap.value s.clients_ other)
    ∧ (QMap.contains s.clients_ robotId = true →
        QMap.size (connectAll s (calls ++ [last])).clients_ = QMap.size s.clients_)
    ∧ (QMap.contains s.clients_ robotId = false →
        QMap.size (connectAll s (calls ++ [last])).clients_ = QMap.size s.clients_ + 1)
    ∧ QMap.WF (connectAll s (calls ++ [last])).clients_ := by
  induction calls generalizing s with
  | nil =>
      have hl : QString.fromCStr last.req.clientid = robotId := hid last (by simp)
      have h := connectRobot_clients last.p last.ctaId last.req s
      rw [hl] at h
      obtain ⟨h1, h2, h3, h4, h5, h6⟩ := h
      simp only [List.nil_append, connectAll]
      exact ⟨h1, h2, h3, fun other hne => value_eq_of_remove_eq _ _ _ _ h3 hne,
        h5 hs, h6, h4 hs⟩
  | cons c cs ih =>
      have hc : QString.fromCStr c.req.clientid = robotId := hid c (by simp)
      have h := connectRobot_clients c.p c.ctaId c.req s
      rw [hc] at h
      obtain ⟨h1, _, h3, h4, h5, h6⟩ := h
      have hid2 : ∀ d ∈ cs ++ [last], QString.fromCStr d.req.clientid = robotId :=
        fun d hd => hid d (by simp at hd ⊢; tauto)
      obtain ⟨i1, i2, i3, _, i5, _, i7⟩ :=
        ih (connectRobot c.p c.ctaId c.req s).1 (h4 hs) hid2
      have hcont : QMap.contains (connectRobot c.p c.ctaId c.req s).1.clients_ robotId
          = true := by
        cases hx : QMap.contains (connectRobot c.p c.ctaId c.req s).1.clients_ robotId with
        | true => rfl
        | false =>
            rw [(QMap.keyCount_eq_zero_iff _ _).2 hx] at h1
            exact absurd h1 (by decide)
      have hstep : connectAll s (c :: cs ++ [last])
          = connectAll (connectRobot c.p c.ctaId c.req s).1 (cs ++ [last]) := rfl
      rw [hstep]
      refine ⟨i1, i2, i3.trans h3, ?_, ?_, ?_, i7⟩
      · intro other hne
        exact value_eq_of_remove_eq _ _ _ _ (i3.trans h3) hne
      · intro hin
        exact (i5 hcont).trans (h5 hs hin)
      · intro hout
        exact (i5 hcont).trans (h6 hout)

/-- Scenario: `R1` reconnected twice, first with subscription `AAPL`, then
with `*` again. -/
theorem connectRobot_same_id_sequence_R1 :
    QMap.WF svcR1.clients_
    ∧ QMap.keyCount
        (connectAll svcR1 ([{ p := 2, ctaId := "cta", req := reqR1Aapl }]
          ++ [{ p := 3, ctaId := "cta", req := reqR1Star }])).clients_ "R1" = 1
    ∧ QMap.value
        (connectAll svcR1 ([{ p := 2, ctaId := "cta", req := reqR1Aapl }]
          ++ [{ p := 3, ctaId := "cta", req := reqR1Star }])).clients_ "R1"
        = some (ConnectCall.client { p := 3, ctaId := "cta", req := reqR1Star })
    ∧ QMap.size
        (connectAll svcR1 ([{ p := 2, ctaId := "cta", req := reqR1Aapl }]
          ++ [{ p := 3, ctaId := "cta", req := reqR1Star }])).clients_
        = QMap.size svcR1.clients_ :=
  ⟨by decide,
   (connectRobot_same_id_sequence svcR1 (by decide) "R1"
      [{ p := 2, ctaId := "cta", req := reqR1Aapl }]
      { p := 3, ctaId := "cta", req := reqR1Star } (by decide)).1,
   (connectRobot_same_id_sequence svcR1 (by decide) "R1"
      [{ p := 2, ctaId := "cta", req := reqR1Aapl }]
      { p := 3, ctaId := "cta", req := reqR1Star } (by decide)).2.1,
   (connectRobot_same_id_sequence svcR1 (by decide) "R1"
      [{ p := 2, ctaId := "cta", req := reqR1Aapl }]
      { p := 3, ctaId := "cta", req := reqR1Star } (by decide)).2.2.2.2.1 (by decide)⟩

/-! ## Replacement and disconnect -/

/-- Trace of `connectRobot` when the id is registered: constructor of the new
connection, then destructor of the old one. -/
theorem connectRobot_trace_of_value (s : PushService) (p : Ptr) (ctaId : String)
    (req : BfConnectReq) (old : RobotClient)
    (hold : QMap.value s.clients_ (QString.fromCStr req.clientid) = some old) :
    (connectRobot p ctaId req s).2
        = [Event.channelCreated p (endpointOf req), Event.threadCreated p,
           Event.threadStarted p,
           Event.cqShutdown old.self, Event.threadQuit old.self, Event.threadWait old.self,
           Event.threadDeleted old.self, Event.cqDestroyed old.self,
           Event.stubDestroyed old.self] := by
  have hc := QMap.contains_of_value _ _ _ hold
  simp [connectRobot, hc, deleteValue, hold, RobotClient.ctor, RobotClient.dtor]

/-- Removing an absent key changes nothing. -/
theorem remove_of_not_contains {V : Type} (m : QMap V) (key : String)
    (h : QMap.contains m key = false) : QMap.remove m key = m :=
  QMap.remove_of_keyCount_zero m key ((QMap.keyCount_eq_zero_iff m key).2 h)

/-- A removed key is no longer contained. -/
theorem contains_remove_self {V : Type} (m : QMap V) (key : String) :
    QMap.contains (QMap.remove m key) key = false :=
  (QMap.keyCount_eq_zero_iff _ _).1 (QMap.keyCount_remove_self m key)

/-- Registry after `disconnectRobot`: the key is removed. -/
theorem disconnectRobot_clients (s : PushService) (robotId : String) :
    (disconnectRobot robotId s).1.clients_ = QMap.remove s.clients_ robotId := by
  by_cases hc : QMap.contains s.clients_ robotId = true
  · simp [disconnectRobot, hc]
  · have hc2 : QMap.contains s.clients_ robotId = false := by simpa using hc
    simp [disconnectRobot, hc2, remove_of_not_contains _ _ hc2]

/-- Trace of `disconnectRobot` for a registered id: that connection's
destructor. -/
theorem disconnectRobot_trace_of_value (s : PushService) (robotId : String)
    (c : RobotClient) (hv : QMap.value s.clients_ robotId = some c) :
    (disconnectRobot robotId s).2 = c.dtor := by
  have hc := QMap.contains_of_value _ _ _ hv
  simp [disconnectRobot, hc, deleteValue, hv]

/-- On an absent id `disconnectRobot` does nothing. -/
theorem disconnectRobot_of_not_contains (s : PushService) (robotId : String)
    (hc : QMap.contains s.clients_ robotId = false) :
    disconnectRobot robotId s = (s, []) := by
  simp [disconnectRobot, hc]

/-- C5, as stated, fails: reconnecting `R1` (old connection at address 1, new
one at address 2) starts the new drain worker before the old one is shut down
and joined, so that after the third event both workers are active. -/
theorem connectRobot_starts_new_worker_before_old_joined :
    QMap.value svcR1.clients_ (QString.fromCStr reqR1Aapl.clientid)
        = some (RobotClient.ctor 1 "127.0.0.1:9000" "cta" reqR1Star).1
    ∧ ¬ precedes (Event.threadWait 1) (Event.threadStarted 2)
          (connectRobot 2 "cta" reqR1Aapl svcR1).2
    ∧ precedes (Event.threadStarted 2) (Event.cqShutdown 1)
          (connectRobot 2 "cta" reqR1Aapl svcR1).2
    ∧ activeWorkers svcR1.handles ((connectRobot 2 "cta" reqR1Aapl svcR1).2.take 3)
        = [1, 2] := by
  decide

/-- C5 (amended). When the robot id is already registered, `connectRobot`
first creates the new connection and starts its drain worker, and only then
shuts down, joins and frees the old connection: once the new worker is started
both workers are active, at the end of the call only the new one is, and the
registry holds exactly the new connection under that id. -/
theorem connectRobot_replace_trace (s : PushService) (p : Ptr) (ctaId : String)
    (req : BfConnectReq) (old : RobotClient)
    (hold : QMap.value s.clients_ (QString.fromCStr req.clientid) = some old) :
    (connectRobot p ctaId req s).2
        = [Event.channelCreated p (endpointOf req), Event.threadCreated p,
           Event.threadStarted p,
           Event.cqShutdown old.self, Event.threadQuit old.self, Event.threadWait old.self,
           Event.threadDeleted old.self, Event.cqDestroyed old.self,
           Event.stubDestroyed old.self]
    ∧ precedes (Event.threadStarted p) (Event.cqShutdown old.self)
        (connectRobot p ctaId req s).2
    ∧ precedes (Event.cqShutdown old.self) (Event.threadWait old.self)
        (connectRobot p ctaId req s).2
    ∧ precedes (Event.threadWait old.self) (Event.stubDestroyed old.self)
        (connectRobot p ctaId req s).2
    ∧ QMap.value (connectRobot p ctaId req s).1.clients_ (QString.fromCStr req.clientid)
        = some (RobotClient.ctor p (endpointOf req) ctaId req).1
    ∧ QMap.keyCount (connectRobot p ctaId req s).1.clients_ (QString.fromCStr req.clientid) = 1
    ∧ activeWorkers [old.self] ((connectRobot p ctaId req s).2.take 3) = [old.self, p]
    ∧ activeWorkers [old.self] (connectRobot p ctaId req s).2 = [p] := by
  have htr := connectRobot_trace_of_value s p ctaId req old hold
  have hcl := connectRobot_clients p ctaId req s
  rw [htr]
  refine ⟨rfl, ?_, ?_, ?_, hcl.2.1, hcl.1, ?_, ?_⟩
  · simp [precedes, List.indexOf, List.findIdx, List.findIdx.go, Bool.cond_eq_ite]
  · simp [precedes, List.indexOf, List.findIdx, List.findIdx.go, Bool.cond_eq_ite]
  · simp [precedes, List.indexOf, List.findIdx, List.findIdx.go, Bool.cond_eq_ite]
  · simp [activeWorkers]
  · by_cases hp : p = old.self
    · simp [activeWorkers, hp]
    · simp [activeWorkers, hp, List.erase_cons]

/-- Scenario: `R1` at address 1 replaced by a connection at address 2. -/
theorem connectRobot_replace_trace_R1 :
    QMap.value svcR1.clients_ (QString.fromCStr reqR1Aapl.clientid)
        = some (RobotClient.ctor 1 "127.0.0.1:9000" "cta" reqR1Star).1
    ∧ (connectRobot 2 "cta" reqR1Aapl svcR1).2
        = [Event.channelCreated 2 "127.0.0.1:9000", Event.threadCreated 2,
           Event.threadStarted 2,
           Event.cqShutdown 1, Event.threadQuit 1, Event.threadWait 1,
           Event.threadDeleted 1, Event.cqDestroyed 1, Event.stubDestroyed 1] :=
  ⟨by decide,
   (connectRobot_replace_trace svcR1 2 "cta" reqR1Aapl
      (RobotClient.ctor 1 "127.0.0.1:9000" "cta" reqR1Star).1 (by decide)).1⟩

/-- C6. `disconnectRobot(id)` always completes and leaves the registry equal
to the previous one with the entry for `id` erased: for an absent id nothing
changes and nothing is torn down; for a present id exactly that connection is
destroyed (its worker joined) and removed; every other entry is unchanged. -/
theorem disconnectRobot_erases (s : PushService) (hs : QMap.WF s.clients_)
    (robotId : String) :
    s.step (Op.disconnectRobot robotId) = some (disconnectRobot robotId s)
    ∧ (disconnectRobot robotId s).1.clients_ = QMap.remove s.clients_ robotId
    ∧ (disconnectRobot robotId s).1.pingTimer_ = s.pingTimer_
    ∧ QMap.contains (disconnectRobot robotId s).1.clients_ robotId = false
    ∧ (∀ other : String, other ≠ robotId →
        QMap.value (disconnectRobot robotId s).1.clients_ other
          = QMap.value s.clients_ other)
    ∧ (QMap.contains s.clients_ robotId = false → disconnectRobot robotId s = (s, []))
    ∧ (∀ c : RobotClient, QMap.value s.clients_ robotId = some c →
        (disconnectRobot robotId s).2 = c.dtor
        ∧ joined (disconnectRobot robotId s).2 = [c.self]
        ∧ destroyed (disconnectRobot robotId s).2 = [c.self]
        ∧ QMap.size (disconnectRobot robotId s).1.clients_ + 1 = QMap.size s.clients_) := by
  have hcl := disconnectRobot_clients s robotId
  refine ⟨rfl, hcl, ?_, ?_, ?_, ?_, ?_⟩
  · by_cases hc : QMap.contains s.clients_ robotId = true
    · simp [disconnectRobot, hc]
    · have hc2 : QMap.contains s.clients_ robotId = false := by simpa using hc
      simp [disconnectRobot, hc2]
  · rw [hcl]
    exact contains_remove_self _ _
  · intro other hne
    rw [hcl]
    exact QMap.value_remove_of_ne _ _ _ hne
  · intro hc
    exact disconnectRobot_of_not_contains s robotId hc
  · intro c hv
    have hc := QMap.contains_of_value _ _ _ hv
    have htr := disconnectRobot_trace_of_value s robotId c hv
    refine ⟨htr, ?_, ?_, ?_⟩
    · rw [htr]; simp [RobotClient.dtor, joined]
    · rw [htr]; simp [RobotClient.dtor, destroyed]
    · rw [hcl]
      have h2 := QMap.size_remove s.clients_ robotId
      have h3 := QMap.keyCount_eq_one s.clients_ robotId hs hc
      omega

/-- Scenario: disconnecting `R1`, then an unknown id, from `R1`, `R2`. -/
theorem disconnectRobot_erases_R1 :
    QMap.WF svcR1R2.clients_
    ∧ (disconnectRobot "R1" svcR1R2).1.clients_ = QMap.remove svcR1R2.clients_ "R1"
    ∧ (QMap.contains svcR1R2.clients_ "R9" = false →
        disconnectRobot "R9" svcR1R2 = (svcR1R2, [])) :=
  ⟨by decide, (disconnectRobot_erases svcR1R2 (by decide) "R1").2.1,
   (disconnectRobot_erases svcR1R2 (by decide) "R9").2.2.2.2.2.1⟩

/-! ## Shutdown -/

/-- One call keeps the map sorted and balances started against joined workers. -/
theorem step_balance (s : PushService) (hs : QMap.WF s.clients_) (op : Op)
    (s1 : PushService) (t1 : List Event) (h : s.step op = some (s1, t1)) :
    QMap.WF s1.clients_
    ∧ (started t1).length + QMap.size s.clients_
        = (joined t1).length + QMap.size s1.clients_ := by
  cases op with
  | init =>
      simp only [step, init, Option.some.injEq, Prod.mk.injEq] at h
      obtain ⟨h1, h2⟩ := h
      subst h1 h2
      exact ⟨hs, by simp [started, joined]⟩
  | shutdown =>
      simp only [step, shutdown] at h
      cases ht : s.pingTimer_ with
      | none => simp [ht] at h
      | some t =>
          simp only [ht, Option.some.injEq, Prod.mk.injEq] at h
          obtain ⟨h1, h2⟩ := h
          subst h1 h2
          refine ⟨by simp [QMap.WF], ?_⟩
          simp [started, joined, started_deleteAll, joined_deleteAll, QMap.size, QMap.values]
  | connectRobot p ctaId req =>
      simp only [step, Option.some.injEq] at h
      have hcl := connectRobot_clients p ctaId req s
      rw [h] at hcl
      obtain ⟨_, _, _, h4, h5, h6⟩ := hcl
      refine ⟨h4 hs, ?_⟩
      have ht1 : t1 = (connectRobot p ctaId req s).2 := by rw [h]
      by_cases hc : QMap.contains s.clients_ (QString.fromCStr req.clientid) = true
      · obtain ⟨old, hold⟩ := QMap.value_isSome_of_contains _ _ hc
        have htr := connectRobot_trace_of_value s p ctaId req old hold
        rw [ht1, htr, h5 hs hc]
        simp [started, joined]
      · have hc2 : QMap.contains s.clients_ (QString.fromCStr req.clientid) = false := by
          simpa using hc
        rw [h6 hc2, ht1]
        simp [connectRobot, hc2, RobotClient.ctor, started, joined]
        omega
  | disconnectRobot robotId =>
      simp only [step, Option.some.injEq] at h
      have hcl := disconnectRobot_clients s robotId
      rw [h] at hcl
      simp only at hcl
      refine ⟨by rw [hcl]; exact QMap.WF_remove _ _ hs, ?_⟩
      by_cases hc : QMap.contains s.clients_ robotId = true
      · obtain ⟨old, hold⟩ := QMap.value_isSome_of_contains _ _ hc
        have htr := disconnectRobot_trace_of_value s robotId old hold
        rw [h] at htr
        simp only at htr
        have h2 := QMap.size_remove s.clients_ robotId
        have h3 := QMap.keyCount_eq_one s.clients_ robotId hs hc
        rw [htr, hcl]
        simp [RobotClient.dtor, started, joined]
        omega
      · have hc2 : QMap.contains s.clients_ robotId = false := by simpa using hc
        have habs := disconnectRobot_of_not_contains s robotId hc2
        rw [h] at habs
        simp only [Prod.mk.injEq] at habs
        obtain ⟨h1, h2⟩ := habs
        subst h1 h2
        simp [started, joined]
  | onCtaClosed =>
      simp only [step, onCtaClosed, Option.some.injEq, Prod.mk.injEq] at h
      obtain ⟨h1, h2⟩ := h
      subst h1 h2
      refine ⟨by simp [QMap.WF], ?_⟩
      simp [started_deleteAll, joined_deleteAll, QMap.size, QMap.values]
  | onPing =>
      simp only [step, onPing, Option.some.injEq, Prod.mk.injEq] at h
      obtain ⟨h1, h2⟩ := h
      subst h1 h2
      exact ⟨hs, by simp [started_pingAll, joined_pingAll]⟩
  | onGotTick bfItem =>
      simp only [step, onGotTick, Option.some.injEq, Prod.mk.injEq] at h
      obtain ⟨h1, h2⟩ := h
      subst h1 h2
      exact ⟨hs, by simp [started, joined]⟩

/-- A run keeps the map sorted and balances started against joined workers. -/
theorem run_balance (ops : List Op) (s : PushService) (hs : QMap.WF s.clients_)
    (s1 : PushService) (t1 : List Event) (h : s.run ops = some (s1, t1)) :
    QMap.WF s1.clients_
    ∧ (started t1).length + QMap.size s.clients_
        = (joined t1).length + QMap.size s1.clients_ := by
  induction ops generalizing s t1 with
  | nil =>
      simp only [run, Option.some.injEq, Prod.mk.injEq] at h
      obtain ⟨h1, h2⟩ := h
      subst h1 h2
      exact ⟨hs, by simp [started, joined]⟩
  | cons op rest ih =>
      simp only [run] at h
      cases hstep : s.step op with
      | none => simp [hstep] at h
      | some r =>
          obtain ⟨sa, ta⟩ := r
          simp only [hstep] at h
          cases hrun : sa.run rest with
          | none => simp [hrun] at h
          | some r2 =>
              obtain ⟨sb, tb⟩ := r2
              simp only [hrun, Option.some.injEq, Prod.mk.injEq] at h
              obtain ⟨h1, h2⟩ := h
              subst h1 h2
              obtain ⟨hwa, hba⟩ := step_balance s hs op sa ta hstep
              obtain ⟨hwb, hbb⟩ := ih sa hwa tb hrun
              refine ⟨hwb, ?_⟩
              rw [started_append, joined_append, List.length_append, List.length_append]
              omega

/-- A run ending with `final` splits into the run before and the last call. -/
theorem run_snoc (ops : List Op) (final : Op) (s s1 : PushService) (trace : List Event)
    (h : s.run (ops ++ [final]) = some (s1, trace)) :
    ∃ (s0 : PushService) (t0 tf : List Event),
      s.run ops = some (s0, t0) ∧ s0.step final = some (s1, tf) ∧ trace = t0 ++ tf := by
  induction ops generalizing s trace with
  | nil =>
      simp only [List.nil_append, run] at h
      cases hstep : s.step final with
      | none => simp [hstep] at h
      | some r =>
          obtain ⟨sa, ta⟩ := r
          simp only [hstep, Option.some.injEq, Prod.mk.injEq] at h
          obtain ⟨h1, h2⟩ := h
          subst h1 h2
          exact ⟨s, [], ta, rfl, hstep, by simp⟩
  | cons op rest ih =>
      have h2 : (match s.step op with
          | none => none
          | some (sa, ta) =>
              match PushService.run sa (rest ++ [final]) with
              | none => none
              | some (sb, tb) => some (sb, ta ++ tb)) = some (s1, trace) := h
      cases hstep : s.step op with
      | none => simp [hstep] at h2
      | some r =>
          obtain ⟨sa, ta⟩ := r
          rw [hstep] at h2
          cases hrun : sa.run (rest ++ [final]) with
          | none => simp [hrun] at h2
          | some r2 =>
              obtain ⟨sb, tb⟩ := r2
              simp only [hrun, Option.some.injEq, Prod.mk.injEq] at h2
              obtain ⟨h3, h4⟩ := h2
              subst h3 h4
              obtain ⟨s0, t0, tf, hr, hs0, htb⟩ := ih sa tb hrun
              refine ⟨s0, ta ++ t0, tf, ?_, hs0, ?_⟩
              · simp [run, hstep, hr]
              · rw [htb, List.append_assoc]

/-- The registry is empty after `shutdown` and after `onCtaClosed`. -/
theorem clients_empty_after_final (s0 s1 : PushService) (final : Op) (tf : List Event)
    (hfinal : final = Op.shutdown ∨ final = Op.onCtaClosed)
    (h : s0.step final = some (s1, tf)) : s1.clients_ = [] := by
  rcases hfinal with hf | hf
  · subst hf
    simp only [step, shutdown] at h
    cases ht : s0.pingTimer_ with
    | none => simp [ht] at h
    | some t =>
        simp only [ht, Option.some.injEq, Prod.mk.injEq] at h
        rw [← h.1]
  · subst hf
    simp only [step, onCtaClosed, Option.some.injEq, Prod.mk.injEq] at h
    rw [← h.1]

/-- C7, as stated, fails for `shutdown()`: the run `init`, connect `R1`,
`shutdown`, connect `R1` again reaches a service with a null timer and `R1`
registered; a further `shutdown()` there faults at its first statement, so
the registry is not emptied and the connection is neither joined nor
destroyed. -/
theorem shutdown_faults_on_null_timer :
    Option.map Prod.fst
        (PushService.new.run [Op.init, Op.connectRobot 1 "cta" reqR1Star, Op.shutdown,
          Op.connectRobot 2 "cta" reqR1Star]) = some svcNullTimer
    ∧ svcNullTimer.pingTimer_ = none
    ∧ svcNullTimer.handles = [2]
    ∧ svcNullTimer.shutdown = none
    ∧ PushService.new.run [Op.init, Op.connectRobot 1 "cta" reqR1Star, Op.shutdown,
          Op.connectRobot 2 "cta" reqR1Star, Op.shutdown] = none := by
  decide

/-- C7 (amended). For every registry state, after `onCtaClosed()`, and after
`shutdown()` on a service whose health timer exists (created by `init()`),
the registry is empty and the trace joins and destroys exactly the
connections that were registered, each one once, starting no worker; on a
null timer `shutdown()` faults at its first statement. Over any run of the
service from construction that ends with one of the two calls, as many
workers were joined as were started. -/
theorem shutdown_and_onCtaClosed_destroy_all (s : PushService) :
    (∀ t : QTimer, s.pingTimer_ = some t →
        ∃ trace, s.shutdown = some ({ pingTimer_ := none, clients_ := [] }, trace)
          ∧ started trace = [] ∧ joined trace = s.handles ∧ destroyed trace = s.handles)
    ∧ (s.pingTimer_ = none → s.shutdown = none)
    ∧ (s.onCtaClosed.1.clients_ = [] ∧ started s.onCtaClosed.2 = []
        ∧ joined s.onCtaClosed.2 = s.handles ∧ destroyed s.onCtaClosed.2 = s.handles)
    ∧ (s.handles.Nodup → ∀ p ∈ s.handles,
        (joined s.onCtaClosed.2).count p = 1 ∧ (destroyed s.onCtaClosed.2).count p = 1)
    ∧ (∀ (ops : List Op) (final : Op) (s1 : PushService) (trace : List Event),
        final = Op.shutdown ∨ final = Op.onCtaClosed →
        PushService.new.run (ops ++ [final]) = some (s1, trace) →
        s1.clients_ = [] ∧ (joined trace).length = (started trace).length) := by
  refine ⟨?_, ?_, ?_, ?_, ?_⟩
  · intro t ht
    refine ⟨[Event.timerStopped, Event.timerDeleted] ++ deleteAll (QMap.values s.clients_),
      by simp [shutdown, ht], ?_, ?_, ?_⟩
    · simp [started_append, started_deleteAll, started]
    · simp [joined_append, joined_deleteAll, joined, handles]
    · simp [destroyed_append, destroyed_deleteAll, destroyed, handles]
  · intro hnone
    simp [shutdown, hnone]
  · exact ⟨rfl, started_deleteAll _, joined_deleteAll _, destroyed_deleteAll _⟩
  · intro hnd p hp
    have hj : joined s.onCtaClosed.2 = s.handles := joined_deleteAll _
    have hd : destroyed s.onCtaClosed.2 = s.handles := destroyed_deleteAll _
    rw [hj, hd]
    exact ⟨List.count_eq_one_of_mem hnd hp, List.count_eq_one_of_mem hnd hp⟩
  · intro ops final s1 trace hfinal hrun
    have hbal := run_balance (ops ++ [final]) PushService.new
      (by simp [PushService.new, QMap.WF]) s1 trace hrun
    have hempty : s1.clients_ = [] := by
      obtain ⟨s0, t0, tf, _, hstep, _⟩ := run_snoc ops final PushService.new s1 trace hrun
      exact clients_empty_after_final s0 s1 final tf hfinal hstep
    refine ⟨hempty, ?_⟩
    have := hbal.2
    rw [hempty] at this
    simp [PushService.new, QMap.size] at this
    omega

/-- Scenario: closing the session with `R1` and `R2` connected, shutting the
service down, and a whole run of the service that ends with `onCtaClosed`. -/
theorem shutdown_and_onCtaClosed_R1R2 :
    svcR1R2.pingTimer_ = some { interval := 5000, active := true }
    ∧ svcR1R2.onCtaClosed.1.clients_ = []
    ∧ joined svcR1R2.onCtaClosed.2 = [1, 2]
    ∧ destroyed svcR1R2.onCtaClosed.2 = [1, 2]
    ∧ (∃ trace, svcR1R2.shutdown = some ({ pingTimer_ := none, clients_ := [] }, trace)
        ∧ started trace = [] ∧ joined trace = [1, 2] ∧ destroyed trace = [1, 2])
    ∧ PushService.new.run ([Op.init, Op.connectRobot 1 "cta" reqR1Star] ++ [Op.onCtaClosed])
        = some ({ pingTimer_ := some { interval := 5000, active := true }, clients_ := [] },
            [Event.timerStarted 5000, Event.channelCreated 1 "127.0.0.1:9000",
             Event.threadCreated 1, Event.threadStarted 1, Event.cqShutdown 1,
             Event.threadQuit 1, Event.threadWait 1, Event.threadDeleted 1,
             Event.cqDestroyed 1, Event.stubDestroyed 1])
    ∧ (joined [Event.timerStarted 5000, Event.channelCreated 1 "127.0.0.1:9000",
             Event.threadCreated 1, Event.threadStarted 1, Event.cqShutdown 1,
             Event.threadQuit 1, Event.threadWait 1, Event.threadDeleted 1,
             Event.cqDestroyed 1, Event.stubDestroyed 1]).length
        = (started [Event.timerStarted 5000, Event.channelCreated 1 "127.0.0.1:9000",
             Event.threadCreated 1, Event.threadStarted 1, Event.cqShutdown 1,
             Event.threadQuit 1, Event.threadWait 1, Event.threadDeleted 1,
             Event.cqDestroyed 1, Event.stubDestroyed 1]).length :=
  ⟨by decide,
   (shutdown_and_onCtaClosed_destroy_all svcR1R2).2.2.1.1,
   (shutdown_and_onCtaClosed_destroy_all svcR1R2).2.2.1.2.2.1,
   (shutdown_and_onCtaClosed_destroy_all svcR1R2).2.2.1.2.2.2,
   (shutdown_and_onCtaClosed_destroy_all svcR1R2).1 { interval := 5000, active := true }
      (by decide),
   by decide,
   ((shutdown_and_onCtaClosed_destroy_all svcR1R2).2.2.2.2
      [Op.init, Op.connectRobot 1 "cta" reqR1Star] Op.onCtaClosed
      { pingTimer_ := some { interval := 5000, active := true }, clients_ := [] } _
      (Or.inr rfl) (by decide)).2⟩

end BfTrader
